import Mathlib

/-!
Verification of the variant-map-imputation pipeline (Zscore modules).

Shallow embedding of the pipeline core:
* `parse_hgvs_pro` (01_data_processing.py) — compound protein-variant
  string decomposition; Python strings are modelled as `List Char`.
* `calculate_z_scores` (01_data_processing.py) — per-experiment z-score
  normalisation with the pandas sample (n-1) standard deviation.
* `analyze_data_coverage` (02_data_validation.py) — coverage filter and
  coverage report; numpy division (with NaN on 0/0) is modelled by an
  `Option` result, `none` standing for NaN.
* `validate_knn_imputation` (02_data_validation.py) — hide-and-recover
  cross-validation; the numpy global random generator is modelled
  abstractly (a fold mask as a pure function, and separately an explicit
  generator-state-threading version for the determinism claim).
* `perform_knn_imputation` (03_imputation.py) — coverage re-filter at the
  hard-coded threshold 5 followed by scikit-learn `KNNImputer`
  (uniform weights, nan-euclidean distance); the imputer is modelled from
  its documented behaviour since its code is an external library.
* `categorize_mutations` (04_analysis.py) — effect categories via
  `pd.cut` with right-closed bins.

Matrices are `List (String × List (Option ℚ))`: one entry per mutation
row, a cell `none` standing for a missing (NaN) value.  Real-number
scores are modelled by `ℚ` wherever the claims are about exact
arithmetic identities, and by `ℝ` where a square root is involved.
-/

section PipelineVerification

/- Batteries marks the arithmetic on `Rat` `@[irreducible]`; restore the
default reducibility inside this development so that `decide` can
evaluate concrete pipeline runs. -/
attribute [local semireducible] Rat.add Rat.mul Rat.inv Rat.sub

/-! ### Notation parser (01_data_processing.py, `parse_hgvs_pro`) -/

/-- Model of Python `str.replace('p.[', '')`: remove every occurrence of
the three-character pattern `p.[`, scanning left to right. -/
def removePdotBracket : List Char → List Char
  | 'p' :: '.' :: '[' :: rest => removePdotBracket rest
  | c :: rest => c :: removePdotBracket rest
  | [] => []

/-- Model of Python `str.split(';')`: split into the (possibly empty)
runs between semicolons; the empty string yields `[[]]`. -/
def splitSemi : List Char → List (List Char)
  | [] => [[]]
  | c :: rest =>
    let r := splitSemi rest
    if c = ';' then [] :: r
    else
      match r with
      | [] => [[c]]
      | t :: ts => (c :: t) :: ts

/-- Model of Python `str.strip()`: drop leading and trailing whitespace. -/
def stripChars (s : List Char) : List Char :=
  ((s.dropWhile Char.isWhitespace).reverse.dropWhile Char.isWhitespace).reverse

/-- Model of `parse_hgvs_pro` from 01_data_processing.py.  `none` models an absent
(NaN) input.  The source removes the `p.[` markup, removes every `]`,
splits on `;`, strips each token and keeps the non-empty ones. -/
def parse_hgvs_pro : Option (List Char) → List (List Char)
  | none => []
  | some s =>
    if s = ['p', '.', '='] then []
    else
      ((splitSemi ((removePdotBracket s).filter (fun c => c ≠ ']'))).map
        stripChars).filter (fun t => t ≠ [])

/-! ### Effect categories (04_analysis.py, `categorize_mutations`) -/

/-- Arithmetic mean of a list of rationals (`sum / length`; the empty
list gives `0` by rational division-by-zero conventions, mirroring the
NaN-free uses below). -/
def qmean (l : List ℚ) : ℚ := l.sum / l.length

/-- The category `pd.cut(mean, bins=[-inf, -1, -0.5, 0.5, 1, inf])`
assigns: `pd.cut` uses right-closed intervals, so the bins are
(-inf,-1], (-1,-0.5], (-0.5,0.5], (0.5,1], (1,inf). -/
def effect_category (m : ℚ) : String :=
  if m ≤ -1 then "Strong Deleterious"
  else if m ≤ -(1/2) then "Deleterious"
  else if m ≤ 1/2 then "Neutral"
  else if m ≤ 1 then "Beneficial"
  else "Strong Beneficial"

/-- Model of `categorize_mutations` from 04_analysis.py on a dense matrix: per
row its mean effect and the effect category of that mean.  (The source
also derives `std_effect`, `consistency_score` and `high_consistency`
from the same rows; no claim mentions those fields and they do not feed
back into the mean or the category.) -/
def categorize_mutations (df : List (String × List ℚ)) :
    List (String × ℚ × String) :=
  df.map (fun r => (r.1, qmean r.2, effect_category (qmean r.2)))

/-! ### C1: effect-category boundaries -/

/-- C1 counterexample: the claim (and the spec) put a mean of exactly 0.5
in "Beneficial" and a mean of exactly 1 in "Strong Beneficial", but
`pd.cut` uses right-closed bins, so the code assigns 0.5 to "Neutral" and
1 to "Beneficial". -/
theorem effect_category_half_one_boundaries :
    categorize_mutations [("M", [(1 : ℚ)/2, 1/2])] = [("M", 1/2, "Neutral")] ∧
    "Neutral" ≠ "Beneficial" ∧
    categorize_mutations [("N", [(1 : ℚ), 1])] = [("N", 1, "Beneficial")] ∧
    "Beneficial" ≠ "Strong Beneficial" := by
  refine ⟨by decide, by decide, by decide, by decide⟩

/-- C1 (amended): every category assigned by `categorize_mutations` is
`effect_category` of the row's mean, and `effect_category` partitions ℚ
with right-closed boundaries: ≤ −1 → "Strong Deleterious",
(−1, −0.5] → "Deleterious", (−0.5, 0.5] → "Neutral", (0.5, 1] →
"Beneficial", > 1 → "Strong Beneficial" (so a mean of exactly 0.5 is
"Neutral" and a mean of exactly 1 is "Beneficial"). -/
theorem effect_category_boundaries (df : List (String × List ℚ)) :
    (∀ p ∈ categorize_mutations df, p.2.2 = effect_category p.2.1) ∧
    (∀ m : ℚ,
      (effect_category m = "Strong Deleterious" ↔ m ≤ -1) ∧
      (effect_category m = "Deleterious" ↔ -1 < m ∧ m ≤ -(1/2)) ∧
      (effect_category m = "Neutral" ↔ -(1/2) < m ∧ m ≤ 1/2) ∧
      (effect_category m = "Beneficial" ↔ 1/2 < m ∧ m ≤ 1) ∧
      (effect_category m = "Strong Beneficial" ↔ 1 < m)) := by
  constructor
  · intro p hp
    simp only [categorize_mutations, List.mem_map] at hp
    obtain ⟨r, -, rfl⟩ := hp
    rfl
  · intro m
    unfold effect_category
    split_ifs with h1 h2 h3 h4 <;> try push_neg at h1 h2 h3 h4
    all_goals
      refine ⟨?_, ?_, ?_, ?_, ?_⟩ <;> simp <;>
        first
          | linarith
          | (intro hh; linarith)
          | (constructor <;> linarith)

/-! ### C2: notation-parser token counts -/

/-- C2 counterexample: the input `p.[a;;b]` has three semicolon-separated
tokens, but the parser returns only two, because tokens that are empty
after trimming are discarded (`if m.strip()` in the source). -/
theorem parse_hgvs_pro_empty_token_dropped :
    (splitSemi "p.[a;;b]".toList).length = 3 ∧
    parse_hgvs_pro (some "p.[a;;b]".toList) = ["a".toList, "b".toList] ∧
    (parse_hgvs_pro (some "p.[a;;b]".toList)).length = 2 := by
  refine ⟨by decide, by decide, by decide⟩

/-- C2 (amended): for an input that is not the synonymous indicator and
whose markup-stripped semicolon-separated tokens are all non-empty after
trimming, the parser returns exactly those trimmed tokens, in order (so
exactly n tokens for n semicolon-separated tokens); an absent input or
the literal `p.=` yields the empty sequence.  (In general tokens that
are empty after trimming are discarded.) -/
theorem parse_hgvs_pro_token_count (s : List Char) (h1 : s ≠ ['p', '.', '='])
    (h2 : ∀ t ∈ splitSemi ((removePdotBracket s).filter (fun c => c ≠ ']')),
      stripChars t ≠ []) :
    parse_hgvs_pro (some s) =
      (splitSemi ((removePdotBracket s).filter (fun c => c ≠ ']'))).map stripChars ∧
    (parse_hgvs_pro (some s)).length =
      (splitSemi ((removePdotBracket s).filter (fun c => c ≠ ']'))).length ∧
    parse_hgvs_pro none = [] ∧
    parse_hgvs_pro (some ['p', '.', '=']) = [] := by
  have key : parse_hgvs_pro (some s) =
      (splitSemi ((removePdotBracket s).filter (fun c => c ≠ ']'))).map stripChars := by
    simp only [parse_hgvs_pro]
    rw [if_neg h1]
    apply List.filter_eq_self.mpr
    intro t ht
    obtain ⟨u, hu, rfl⟩ := List.mem_map.mp ht
    simpa using h2 u hu
  exact ⟨key, by rw [key, List.length_map], rfl, by decide⟩

/-- C2 witness: the end-to-end scenario from the spec, via
`parse_hgvs_pro_token_count`. -/
theorem parse_hgvs_pro_token_count_witness :
    "p.[Val57Gln;Tyr9Pro]".toList ≠ ['p', '.', '='] ∧
    parse_hgvs_pro (some "p.[Val57Gln;Tyr9Pro]".toList) =
      ["Val57Gln".toList, "Tyr9Pro".toList] ∧
    (parse_hgvs_pro (some "p.[Val57Gln;Tyr9Pro]".toList)).length = 2 := by
  have h := parse_hgvs_pro_token_count "p.[Val57Gln;Tyr9Pro]".toList
    (by decide) (by decide)
  refine ⟨by decide, ?_, ?_⟩
  · rw [h.1]; decide
  · rw [h.2.1]; decide

/-! ### Score normalizer (01_data_processing.py, `calculate_z_scores`)

The source computes, per experiment group, `(x - x.mean()) / x.std()`
with the pandas sample (`ddof=1`) standard deviation.  Floating-point
arithmetic is modelled by exact arithmetic: rational inputs, real
z-scores (the standard deviation is an exact square root). -/

/-- Sample (n−1) variance of a list of rationals: the square of pandas
`Series.std`.  For `n ≤ 1` the rational division-by-zero convention
gives `0` (pandas gives NaN); the claims only concern experiments with
nonzero variance, which forces `n ≥ 2`. -/
def sampleVar (l : List ℚ) : ℚ :=
  (l.map (fun v => (v - qmean l) ^ 2)).sum / ((l.length : ℚ) - 1)

/-- Pandas sample standard deviation, as an exact real. -/
noncomputable def sampleStd (l : List ℚ) : ℝ :=
  Real.sqrt ((sampleVar l : ℚ) : ℝ)

/-- The `score` column of the rows sharing one experiment id: the
`groupby('experiment_id')['score']` slice seen by the lambda. -/
def scoresOf (recs : List (String × ℚ)) (e : String) : List ℚ :=
  (recs.filter (fun r => r.1 == e)).map Prod.snd

/-- Model of `calculate_z_scores` from 01_data_processing.py: one record per raw
score, z-score `(value − group mean) / group sample std` with the group
statistics taken over all records sharing the record's experiment id. -/
noncomputable def calculate_z_scores (recs : List (String × ℚ)) :
    List (String × ℝ) :=
  recs.map (fun r =>
    (r.1, ((r.2 : ℝ) - ((qmean (scoresOf recs r.1) : ℚ) : ℝ)) /
      sampleStd (scoresOf recs r.1)))

/-- The z-scores of one experiment in the normalizer's output. -/
noncomputable def zOf (recs : List (String × ℚ)) (e : String) : List ℝ :=
  ((calculate_z_scores recs).filter (fun p => p.1 == e)).map Prod.snd

/-- Sample (n−1) variance of a list of reals. -/
noncomputable def sampleVarR (l : List ℝ) : ℝ :=
  (l.map (fun v => (v - l.sum / l.length) ^ 2)).sum / ((l.length : ℝ) - 1)

/-- Sample (n−1) standard deviation of a list of reals. -/
noncomputable def sampleStdR (l : List ℝ) : ℝ := Real.sqrt (sampleVarR l)

theorem list_sum_map_div (l : List ℚ) (f : ℚ → ℝ) (s : ℝ) :
    (l.map (fun v => f v / s)).sum = (l.map f).sum / s := by
  induction l with
  | nil => simp
  | cons x xs ih => simp [ih, add_div]

theorem list_sum_map_sub_const (l : List ℚ) (c : ℝ) :
    (l.map (fun (v : ℚ) => (v : ℝ) - c)).sum = ((l.sum : ℚ) : ℝ) - l.length * c := by
  induction l with
  | nil => simp
  | cons x xs ih =>
    rw [List.map_cons, List.sum_cons, ih, List.sum_cons, List.length_cons]
    push_cast
    ring

theorem list_sum_map_sq_cast (l : List ℚ) (m : ℚ) :
    (l.map (fun (v : ℚ) => ((v : ℝ) - (m : ℝ)) ^ 2)).sum =
      (((l.map (fun v => (v - m) ^ 2)).sum : ℚ) : ℝ) := by
  induction l with
  | nil => simp
  | cons x xs ih =>
    rw [List.map_cons, List.sum_cons, ih, List.map_cons, List.sum_cons]
    push_cast
    ring

theorem filter_map_snd (e : String) (F : String × ℚ → ℝ) (G : ℚ → ℝ)
    (hFG : ∀ r : String × ℚ, r.1 = e → F r = G r.2) (l : List (String × ℚ)) :
    ((l.map (fun r => (r.1, F r))).filter (fun p => p.1 == e)).map Prod.snd
      = ((l.filter (fun r => r.1 == e)).map Prod.snd).map G := by
  induction l with
  | nil => rfl
  | cons r rest ih =>
    by_cases h : r.1 = e
    · simp [List.filter_cons, h, ih, hFG r h]
    · simp [List.filter_cons, h, ih]

theorem zOf_eq (recs : List (String × ℚ)) (e : String) :
    zOf recs e = (scoresOf recs e).map
      (fun (v : ℚ) => ((v : ℝ) - ((qmean (scoresOf recs e) : ℚ) : ℝ)) /
        sampleStd (scoresOf recs e)) := by
  exact filter_map_snd e
    (fun r => ((r.2 : ℝ) - ((qmean (scoresOf recs r.1) : ℚ) : ℝ)) /
      sampleStd (scoresOf recs r.1))
    (fun v => ((v : ℝ) - ((qmean (scoresOf recs e) : ℚ) : ℝ)) /
      sampleStd (scoresOf recs e))
    (fun r hr => by simp only [hr]) recs

theorem z_list_normalized (l : List ℚ) (h : sampleVar l ≠ 0) :
    (l.map (fun (v : ℚ) => ((v : ℝ) - ((qmean l : ℚ) : ℝ)) / sampleStd l)).sum
      = 0 ∧
    sampleStdR
      (l.map (fun (v : ℚ) => ((v : ℝ) - ((qmean l : ℚ) : ℝ)) / sampleStd l))
      = 1 := by
  have hn2 : 2 ≤ l.length := by
    by_contra hcon
    push_neg at hcon
    have : l.length = 0 ∨ l.length = 1 := by omega
    rcases this with h0 | h1
    · exact h (by simp [sampleVar, List.length_eq_zero.mp h0])
    · exact h (by simp [sampleVar, h1])
  have hnne : (l.length : ℝ) ≠ 0 := Nat.cast_ne_zero.mpr (by omega)
  have hdenq : ((l.length : ℚ) - 1) ≠ 0 := by
    have : (2 : ℚ) ≤ l.length := by exact_mod_cast hn2
    linarith
  have hdenpos : (0 : ℚ) < (l.length : ℚ) - 1 := by
    have : (2 : ℚ) ≤ l.length := by exact_mod_cast hn2
    linarith
  have hSnn : 0 ≤ (l.map (fun v => (v - qmean l) ^ 2)).sum := by
    apply List.sum_nonneg
    intro x hx
    obtain ⟨v, -, rfl⟩ := List.mem_map.mp hx
    positivity
  have hSne : (l.map (fun v => (v - qmean l) ^ 2)).sum ≠ 0 := by
    intro h0
    exact h (by rw [sampleVar, h0, zero_div])
  have hvar : sampleVar l
      = (l.map (fun v => (v - qmean l) ^ 2)).sum / ((l.length : ℚ) - 1) := rfl
  have hvpos : 0 < sampleVar l := by
    rw [hvar]
    exact div_pos (lt_of_le_of_ne hSnn (Ne.symm hSne)) hdenpos
  have hvR : (0 : ℝ) < ((sampleVar l : ℚ) : ℝ) := by exact_mod_cast hvpos
  have hstdpos : 0 < sampleStd l := Real.sqrt_pos.mpr hvR
  have hstdne : sampleStd l ≠ 0 := ne_of_gt hstdpos
  have hsq : sampleStd l ^ 2 = ((sampleVar l : ℚ) : ℝ) := Real.sq_sqrt hvR.le
  have hme : ((qmean l : ℚ) : ℝ) = ((l.sum : ℚ) : ℝ) / (l.length : ℝ) := by
    rw [qmean]
    push_cast
    ring
  have hsum :
      (l.map (fun (v : ℚ) => ((v : ℝ) - ((qmean l : ℚ) : ℝ)) / sampleStd l)).sum
        = 0 := by
    rw [list_sum_map_div l (fun (v : ℚ) => (v : ℝ) - ((qmean l : ℚ) : ℝ))
      (sampleStd l)]
    rw [list_sum_map_sub_const l ((qmean l : ℚ) : ℝ), hme]
    have hnum : ((l.sum : ℚ) : ℝ)
        - (l.length : ℝ) * (((l.sum : ℚ) : ℝ) / (l.length : ℝ)) = 0 := by
      field_simp
    rw [hnum, zero_div]
  refine ⟨hsum, ?_⟩
  unfold sampleStdR
  have hvarR : sampleVarR
      (l.map (fun (v : ℚ) => ((v : ℝ) - ((qmean l : ℚ) : ℝ)) / sampleStd l))
      = 1 := by
    unfold sampleVarR
    rw [hsum, List.length_map]
    simp only [zero_div, sub_zero]
    rw [List.map_map]
    have hcomp : ((fun (v : ℝ) => v ^ 2) ∘
          (fun (v : ℚ) => ((v : ℝ) - ((qmean l : ℚ) : ℝ)) / sampleStd l))
        = fun (v : ℚ) =>
            (((v : ℝ) - ((qmean l : ℚ) : ℝ)) ^ 2) / (sampleStd l ^ 2) := by
      funext v
      simp [Function.comp, div_pow]
    rw [hcomp]
    rw [list_sum_map_div l
      (fun (v : ℚ) => ((v : ℝ) - ((qmean l : ℚ) : ℝ)) ^ 2) (sampleStd l ^ 2)]
    rw [list_sum_map_sq_cast l (qmean l), hsq]
    have hcastvar : ((sampleVar l : ℚ) : ℝ)
        = (((l.map (fun v => (v - qmean l) ^ 2)).sum : ℚ) : ℝ)
          / ((l.length : ℝ) - 1) := by
      rw [hvar]
      push_cast
      ring
    rw [hcastvar]
    have hSR : (((l.map (fun v => (v - qmean l) ^ 2)).sum : ℚ) : ℝ) ≠ 0 := by
      exact_mod_cast hSne
    have hdR : ((l.length : ℝ) - 1) ≠ 0 := by
      have : (2 : ℝ) ≤ l.length := by exact_mod_cast hn2
      linarith
    rw [div_div_eq_mul_div, mul_comm, mul_div_assoc, div_self hSR, mul_one,
      div_self hdR]
  rw [hvarR, Real.sqrt_one]

/-- C6: for every experiment whose score set has nonzero sample
variance, the z-scores `calculate_z_scores` produces for that experiment
sum to 0 and have sample (n−1) standard deviation 1, and each equals
`(value − experiment mean) / experiment sample std` computed over all
raw scores sharing that experiment id. -/
theorem z_scores_normalized (recs : List (String × ℚ)) (e : String)
    (h : sampleVar (scoresOf recs e) ≠ 0) :
    (zOf recs e).sum = 0 ∧
    sampleStdR (zOf recs e) = 1 ∧
    zOf recs e = (scoresOf recs e).map
      (fun (v : ℚ) => ((v : ℝ) - ((qmean (scoresOf recs e) : ℚ) : ℝ)) /
        sampleStd (scoresOf recs e)) := by
  obtain ⟨h1, h2⟩ := z_list_normalized (scoresOf recs e) h
  rw [zOf_eq]
  exact ⟨h1, h2, rfl⟩

/-- C6 witness: two scores 10 and 20 in experiment "A" (mean 15,
sample variance 50). -/
theorem z_scores_normalized_witness :
    sampleVar (scoresOf [("A", (10 : ℚ)), ("A", 20)] "A") ≠ 0 ∧
    (zOf [("A", (10 : ℚ)), ("A", 20)] "A").sum = 0 ∧
    sampleStdR (zOf [("A", (10 : ℚ)), ("A", 20)] "A") = 1 := by
  have h := z_scores_normalized [("A", (10 : ℚ)), ("A", 20)] "A" (by decide)
  exact ⟨by decide, h.1, h.2.1⟩

/-! ### Coverage filter (02_data_validation.py, `analyze_data_coverage`)

Matrices are lists of rows `(mutation id, cells)`, a cell `none` being a
missing (NaN) entry; all rows of a DataFrame share the column axis. -/

/-- Present (non-NaN) cells of a row: `df.count(axis=1)` for one row. -/
def countPresent (cells : List (Option ℚ)) : Nat :=
  (cells.filterMap id).length

/-- Number of columns (`len(df.columns)`): the width of the first row. -/
def width (df : List (String × List (Option ℚ))) : Nat :=
  (df.headD ("", [])).2.length

/-- numpy true division, `none` standing for the NaN that `0 / 0`
produces (numpy emits a RuntimeWarning, not an exception). -/
def npDiv (a b : ℚ) : Option ℚ :=
  if b = 0 then none else some (a / b)

/-- The `coverage_stats` dictionary of `analyze_data_coverage`. -/
structure CoverageStats where
  total_mutations : Nat
  well_covered_mutations : Nat
  total_coverage : Option ℚ
  well_covered_coverage : Option ℚ
  deriving DecidableEq

/-- Model of `analyze_data_coverage` from 02_data_validation.py: retain the rows
with at least 5 present entries (the threshold is hard-coded as
`mutation_coverage >= 5`) and report coverage percentages computed as
`df.count().sum() / df.size * 100`. -/
def analyze_data_coverage (df : List (String × List (Option ℚ))) :
    List (String × List (Option ℚ)) × CoverageStats :=
  let wc := df.filter (fun r => 5 ≤ countPresent r.2)
  (wc,
    { total_mutations := df.length
      well_covered_mutations := wc.length
      total_coverage :=
        (npDiv ((df.map (fun r => (countPresent r.2 : ℚ))).sum)
          ((df.length * width df : Nat) : ℚ)).map (fun q => q * 100)
      well_covered_coverage :=
        (npDiv ((wc.map (fun r => (countPresent r.2 : ℚ))).sum)
          ((wc.length * width df : Nat) : ℚ)).map (fun q => q * 100) })

/-! ### C5: coverage report on an empty retained set -/

/-- C5 counterexample: on a matrix whose only row has fewer than 5
present entries the retained set is empty and the after-filtering
coverage is the NaN of numpy's `0 / 0` (modelled `none`), not 0%. -/
theorem analyze_data_coverage_empty_nan :
    (analyze_data_coverage
      [("M", [some (1 : ℚ), none, none, none, none])]).2.well_covered_mutations
      = 0 ∧
    (analyze_data_coverage
      [("M", [some (1 : ℚ), none, none, none, none])]).2.well_covered_coverage
      = none ∧
    (analyze_data_coverage
      [("M", [some (1 : ℚ), none, none, none, none])]).2.well_covered_coverage
      ≠ some 0 := by
  refine ⟨by decide, by decide, by decide⟩

/-- C5 (amended): the coverage filter reports its fields even when the
retained set is empty — no exception is raised — but the after-filtering
coverage is then NaN (`0 / 0`, modelled `none`), not 0%. -/
theorem analyze_data_coverage_empty_report
    (df : List (String × List (Option ℚ)))
    (h : (analyze_data_coverage df).1 = []) :
    (analyze_data_coverage df).2.total_mutations = df.length ∧
    (analyze_data_coverage df).2.well_covered_mutations = 0 ∧
    (analyze_data_coverage df).2.well_covered_coverage = none := by
  have hwc : df.filter (fun r => 5 ≤ countPresent r.2) = [] := h
  refine ⟨rfl, ?_, ?_⟩
  · show (df.filter (fun r => 5 ≤ countPresent r.2)).length = 0
    rw [hwc]
    rfl
  · simp [analyze_data_coverage, hwc, npDiv]

/-- C5 witness: the counterexample matrix run through the amended
report theorem. -/
theorem analyze_data_coverage_empty_report_witness :
    (analyze_data_coverage
      [("M", [some (1 : ℚ), none, none, none, none])]).1 = [] ∧
    (analyze_data_coverage
      [("M", [some (1 : ℚ), none, none, none, none])]).2.total_mutations = 1 ∧
    (analyze_data_coverage
      [("M", [some (1 : ℚ), none, none, none, none])]).2.well_covered_coverage
      = none := by
  have h := analyze_data_coverage_empty_report
    [("M", [some (1 : ℚ), none, none, none, none])] (by decide)
  exact ⟨by decide, h.1, h.2.2⟩

/-! ### C10: the coverage filter is a pure row selection -/

/-- C10: the retained rows form a sublist of the input (order
preserved), and every retained row is literally a row of the input —
its present values, absent entries and width all unchanged.  (The
source hard-codes the threshold 5; the selection is
`df[df.count(axis=1) >= 5]`.) -/
theorem analyze_data_coverage_pure_selection
    (df : List (String × List (Option ℚ))) :
    (analyze_data_coverage df).1
      = df.filter (fun r => 5 ≤ countPresent r.2) ∧
    ((analyze_data_coverage df).1).Sublist df ∧
    ∀ r ∈ (analyze_data_coverage df).1, r ∈ df := by
  refine ⟨rfl, List.filter_sublist df, ?_⟩
  intro r hr
  exact List.mem_of_mem_filter hr

/-! ### Imputation engine (03_imputation.py with scikit-learn KNNImputer)

`perform_knn_imputation` re-filters the rows at the hard-coded coverage
threshold 5 and then calls `KNNImputer(n_neighbors=k).fit_transform`.
The imputer is an external library; it is modelled here from its
documented semantics (uniform weights, nan-euclidean distances): for a
missing cell, potential donors are the rows with a present value in
that column; the effective neighbour count is `min k (number of
donors)`; donors with undefined distance (no jointly-present column)
receive weight 0 and NaN distances order last, so the imputed value is
the mean of the column values of the nearest defined-distance donors;
if no donor has a defined distance the column mean over the potential
donors is used; columns with no present value at all are dropped by the
imputer, which makes the source's `pd.DataFrame(..., columns=...)`
reconstruction raise on the shape mismatch; a 0-row frame or
`n_neighbors = 0` is rejected by scikit-learn validation.  Raised
errors are modelled by a `none` result. -/

/-- The present values of column `c` over the rows of the frame (the
column seen by scikit-learn's potential donors). -/
def colVals (df : List (String × List (Option ℚ))) (c : Nat) : List ℚ :=
  df.filterMap (fun r => r.2.getD c none)

/-- Squared nan-euclidean distance between two rows: squared
differences over the jointly-present coordinates, rescaled by
`total columns / overlap`; `none` (NaN) when the overlap is empty.
Squared distances are compared instead of distances: squaring is
strictly monotone on nonnegative reals, so the donor ordering is the
same. -/
def sqDistOpt (w : Nat) (xs ys : List (Option ℚ)) : Option ℚ :=
  let ds := (xs.zip ys).filterMap (fun p =>
    match p.1, p.2 with
    | some a, some b => some ((a - b) ^ 2)
    | _, _ => none)
  if ds.length = 0 then none else some ((w : ℚ) * ds.sum / ds.length)

/-- The defined-distance donors for a missing cell in column `c` of row
`cells`: (squared distance, donor's value in column `c`) for every row
with a present value in column `c` whose distance to `cells` is
defined. -/
def distDonors (df : List (String × List (Option ℚ))) (w c : Nat)
    (cells : List (Option ℚ)) : List (ℚ × ℚ) :=
  (df.filter (fun r => (r.2.getD c none).isSome)).filterMap (fun r =>
    (sqDistOpt w cells r.2).map (fun d => (d, (r.2.getD c none).getD 0)))

/-- Insertion before the first strictly larger key: a stable insertion
by squared distance.  (scikit-learn's tie order among equidistant
donors is an implementation detail no claim depends on.) -/
def insertByDist (x : ℚ × ℚ) : List (ℚ × ℚ) → List (ℚ × ℚ)
  | [] => [x]
  | y :: ys => if x.1 < y.1 then x :: y :: ys else y :: insertByDist x ys

/-- Insertion sort by squared distance. -/
def sortByDist : List (ℚ × ℚ) → List (ℚ × ℚ)
  | [] => []
  | x :: xs => insertByDist x (sortByDist xs)

/-- One missing cell at column `c` of row `cells`
(scikit-learn `KNNImputer._calc_impute`): mean of the column values of
the `min k (number of donors)` nearest defined-distance donors, falling
back to the column mean over the potential donors when no distance is
defined. -/
def imputeCell (df : List (String × List (Option ℚ))) (w k c : Nat)
    (cells : List (Option ℚ)) : ℚ :=
  let donors := df.filter (fun r => (r.2.getD c none).isSome)
  let withD := distDonors df w c cells
  if withD = [] then qmean (colVals df c)
  else qmean (((sortByDist withD).take (min k donors.length)).map Prod.snd)

/-- Row filler: present cells are kept as they are, missing cells are
imputed; the counter is the column index of the head of `rest`. -/
def imputeCells (df : List (String × List (Option ℚ))) (w k : Nat)
    (cells : List (Option ℚ)) : Nat → List (Option ℚ) → List ℚ
  | _, [] => []
  | c, o :: rest =>
    (match o with
     | some v => v
     | none => imputeCell df w k c cells) :: imputeCells df w k cells (c + 1) rest

/-- Model of `KNNImputer(n_neighbors=k).fit_transform(df)` together with the
`pd.DataFrame(..., index=df.index, columns=df.columns)` reconstruction:
`none` models a raised error (0-row frame, `n_neighbors = 0`, or an
entirely-missing column being dropped so the reconstruction's shape
check fails). -/
def knnFitTransform (df : List (String × List (Option ℚ))) (k : Nat) :
    Option (List (String × List ℚ)) :=
  if df = [] then none
  else if k = 0 then none
  else if (List.range (width df)).any (fun c => colVals df c = []) then none
  else some (df.map (fun r => (r.1, imputeCells df (width df) k r.2 0 r.2)))

/-- Model of `perform_knn_imputation` from 03_imputation.py: the coverage filter
at the hard-coded threshold 5 followed by the imputer. -/
def perform_knn_imputation (df : List (String × List (Option ℚ)))
    (k : Nat) : Option (List (String × List ℚ)) :=
  knnFitTransform (df.filter (fun r => 5 ≤ countPresent r.2)) k

/-- Cell accessor on an optional imputed matrix. -/
def cellAt (m : Option (List (String × List ℚ))) (i c : Nat) : Option ℚ :=
  match m with
  | none => none
  | some rows => (rows.getD i ("", [])).2[c]?

/-! ### C9: the engine's internal coverage re-filter -/

/-- C9: whenever the engine returns a matrix, its rows (mutation ids in
order) are exactly the input rows with at least 5 present entries: the
threshold-5 filter is re-applied inside `perform_knn_imputation`, so
sparser rows are dropped from the output no matter what coverage
threshold was applied upstream. -/
theorem perform_knn_imputation_rows (df : List (String × List (Option ℚ)))
    (k : Nat) (out : List (String × List ℚ))
    (h : perform_knn_imputation df k = some out) :
    out.map Prod.fst
      = (df.filter (fun r => 5 ≤ countPresent r.2)).map Prod.fst := by
  unfold perform_knn_imputation knnFitTransform at h
  split_ifs at h with h1 h2 h3
  obtain rfl :
      ((df.filter (fun r => 5 ≤ countPresent r.2)).map (fun r =>
        (r.1, imputeCells (df.filter (fun r => 5 ≤ countPresent r.2))
          (width (df.filter (fun r => 5 ≤ countPresent r.2))) k r.2 0 r.2)))
        = out := Option.some.inj h
  rw [List.map_map]
  rfl

/-- C9 witness: a two-row matrix in which only the first row has 5
present entries; the output contains exactly that row. -/
theorem perform_knn_imputation_rows_witness :
    perform_knn_imputation
      [("A", [some (1 : ℚ), some 1, some 1, some 1, some 1]),
       ("B", [some (1 : ℚ), none, none, none, none])] 5
      = some [("A", [(1 : ℚ), 1, 1, 1, 1])] ∧
    [("A", [(1 : ℚ), 1, 1, 1, 1])].map Prod.fst
      = ([("A", [some (1 : ℚ), some 1, some 1, some 1, some 1]),
          ("B", [some (1 : ℚ), none, none, none, none])].filter
            (fun r => 5 ≤ countPresent r.2)).map Prod.fst := by
  refine ⟨by decide, perform_knn_imputation_rows _ 5 _ (by decide)⟩

/-! ### C8: behaviour on complete matrices -/

theorem countPresent_of_all_present (cells : List (Option ℚ))
    (h : ∀ o ∈ cells, o.isSome) : countPresent cells = cells.length := by
  unfold countPresent
  induction cells with
  | nil => rfl
  | cons o rest ih =>
    obtain ⟨v, rfl⟩ := Option.isSome_iff_exists.mp (h o (by simp))
    simpa using ih (fun o ho => h o (by simp [ho]))

theorem imputeCells_all_present (df : List (String × List (Option ℚ)))
    (w k : Nat) (cells : List (Option ℚ)) :
    ∀ (c : Nat) (rest : List (Option ℚ)), (∀ o ∈ rest, o.isSome) →
      imputeCells df w k cells c rest = rest.map (fun o => o.getD 0) := by
  intro c rest
  induction rest generalizing c with
  | nil => intro _; rfl
  | cons o rest ih =>
    intro h
    obtain ⟨v, rfl⟩ := Option.isSome_iff_exists.mp (h o (by simp))
    simp [imputeCells, ih (c + 1) (fun o ho => h o (by simp [ho]))]

/-- C8 counterexample: a complete one-cell matrix is not returned
unchanged — its single row has fewer than 5 present entries, so the
internal re-filter leaves an empty frame and the imputer raises
(modelled `none`); and with neighbour count 0 even a wide complete
matrix is rejected by parameter validation. -/
theorem perform_knn_imputation_not_identity :
    perform_knn_imputation [("M", [some (0 : ℚ)])] 5 = none ∧
    perform_knn_imputation [("M", [some (0 : ℚ)])] 5 ≠ some [("M", [(0 : ℚ)])] ∧
    perform_knn_imputation
      [("A", [some (1 : ℚ), some 1, some 1, some 1, some 1])] 0 = none := by
  refine ⟨by decide, by decide, by decide⟩

/-- C8 (amended): for a neighbour count of at least 1 and a nonempty
matrix with no missing cell whose every row has at least 5 entries (so
every row passes the internal re-filter), the engine returns the input
unchanged, cell for cell. -/
theorem perform_knn_imputation_complete_identity
    (df : List (String × List (Option ℚ))) (k : Nat)
    (hk : k ≠ 0) (hne : df ≠ [])
    (hrows : ∀ r ∈ df, 5 ≤ r.2.length ∧ ∀ o ∈ r.2, o.isSome) :
    perform_knn_imputation df k
      = some (df.map (fun r => (r.1, r.2.map (fun o => o.getD 0)))) := by
  have hfil : df.filter (fun r => 5 ≤ countPresent r.2) = df := by
    apply List.filter_eq_self.mpr
    intro r hr
    exact decide_eq_true (by
      rw [countPresent_of_all_present _ (hrows r hr).2]
      exact (hrows r hr).1)
  unfold perform_knn_imputation
  rw [hfil]
  unfold knnFitTransform
  rw [if_neg hne, if_neg hk]
  obtain ⟨r0, rest, rfl⟩ := List.exists_cons_of_ne_nil hne
  have hany : ((List.range (width (r0 :: rest))).any
      (fun c => colVals (r0 :: rest) c = [])) = false := by
    rw [List.any_eq_false]
    intro c hc
    have hc' : c < r0.2.length := by simpa [width] using List.mem_range.mp hc
    have hv : (r0.2.getD c none).isSome := by
      rw [List.getD_eq_getElem?_getD, List.getElem?_eq_getElem hc']
      exact (hrows r0 (by simp)).2 _ (List.getElem_mem hc')
    obtain ⟨v, hv'⟩ := Option.isSome_iff_exists.mp hv
    have hv'' : r0.2[c]?.getD none = some v := by
      rw [← List.getD_eq_getElem?_getD]
      exact hv'
    simp [colVals, List.filterMap_cons, hv'']
  rw [if_neg (by simp [hany])]
  congr 1
  apply List.map_congr_left
  intro r hr
  rw [imputeCells_all_present _ _ _ _ 0 r.2 (hrows r hr).2]

/-- C8 witness: a complete 1×5 matrix is returned unchanged. -/
theorem perform_knn_imputation_complete_identity_witness :
    perform_knn_imputation
      [("A", [some (1 : ℚ), some 2, some 3, some 4, some 5])] 5
      = some [("A", [(1 : ℚ), 2, 3, 4, 5])] := by
  have h := perform_knn_imputation_complete_identity
    [("A", [some (1 : ℚ), some 2, some 3, some 4, some 5])] 5
    (by decide) (by decide) (by decide)
  rw [h]
  decide

/-! ### C3: donor fallback behaviour of the imputer -/

theorem insertByDist_perm (x : ℚ × ℚ) (l : List (ℚ × ℚ)) :
    (insertByDist x l).Perm (x :: l) := by
  induction l with
  | nil => exact List.Perm.refl _
  | cons y ys ih =>
    unfold insertByDist
    split_ifs
    · exact List.Perm.refl _
    · exact (ih.cons y).trans (List.Perm.swap x y ys)

theorem sortByDist_perm (l : List (ℚ × ℚ)) : (sortByDist l).Perm l := by
  induction l with
  | nil => exact List.Perm.refl _
  | cons x xs ih => exact (insertByDist_perm x (sortByDist xs)).trans (ih.cons x)

theorem getD_map_row (df : List (String × List (Option ℚ)))
    (f : String × List (Option ℚ) → String × List ℚ) (i : Nat)
    (hf : f ("", []) = ("", [])) :
    (df.map f).getD i ("", []) = f (df.getD i ("", [])) := by
  induction df generalizing i with
  | nil => simp [hf]
  | cons r rest ih =>
    cases i with
    | zero => simp
    | succ n => simpa using ih n

theorem imputeCells_getElem (df : List (String × List (Option ℚ)))
    (w k : Nat) (cells : List (Option ℚ)) :
    ∀ (rest : List (Option ℚ)) (c j : Nat),
      (imputeCells df w k cells c rest)[j]?
        = rest[j]?.map (fun o =>
            match o with
            | some v => v
            | none => imputeCell df w k (c + j) cells) := by
  intro rest
  induction rest with
  | nil =>
    intro c j
    simp [imputeCells]
  | cons o rest ih =>
    intro c j
    cases j with
    | zero => cases o <;> simp [imputeCells]
    | succ n =>
      have harith : c + (n + 1) = (c + 1) + n := by omega
      simp [imputeCells, ih (c + 1) n, harith]

/-- C3 counterexample: (a) a retained row whose missing cell has zero
eligible neighbour rows (its column is entirely missing) makes the
engine raise — the column is dropped by the imputer and the DataFrame
reconstruction fails — instead of returning a matrix with that cell
undefined; (b) when 2 rows are eligible and k = 5, the imputed value 0
averages only the eligible rows with a defined distance: the mean over
all eligible rows in that column is 50, not 0. -/
theorem imputation_fallback_counterexample :
    perform_knn_imputation
      [("A", [some (1 : ℚ), some 1, some 1, some 1, some 1, none])] 5
      = none ∧
    cellAt (perform_knn_imputation
      [("R", [some (1 : ℚ), some 1, some 1, some 1, some 1,
              none, none, none, none, none, none]),
       ("d1", [none, none, none, none, none,
               some (7 : ℚ), some 7, some 7, some 7, some 7, some 100]),
       ("d2", [some (1 : ℚ), some 1, some 1, some 1, some 1,
               none, none, none, none, none, some 0])] 5) 0 10
      = some 0 ∧
    qmean (colVals
      [("R", [some (1 : ℚ), some 1, some 1, some 1, some 1,
              none, none, none, none, none, none]),
       ("d1", [none, none, none, none, none,
               some (7 : ℚ), some 7, some 7, some 7, some 7, some 100]),
       ("d2", [some (1 : ℚ), some 1, some 1, some 1, some 1,
               none, none, none, none, none, some 0])] 10) = 50 ∧
    (50 : ℚ) ≠ 0 := by
  refine ⟨by decide, by decide, by decide, by decide⟩

/-- C3 (amended): when the engine fills a missing cell and at most k
rows are eligible (present in that column), the cell becomes the mean
over all eligible rows with a defined distance to the target row (rows
sharing no present column are excluded; if none has a defined distance
the column mean over the eligible rows is used); with zero eligible
rows the engine raises an error instead of producing an output. -/
theorem imputation_few_neighbors (df : List (String × List (Option ℚ)))
    (k i c : Nat)
    (hrows : ∀ r ∈ df, 5 ≤ countPresent r.2)
    (hcols : ∀ cc ∈ List.range (width df), colVals df cc ≠ [])
    (hi : i < df.length)
    (hc : (df.getD i ("", [])).2[c]? = some none)
    (hk : (df.filter (fun r => (r.2.getD c none).isSome)).length ≤ k)
    (hw : distDonors df (width df) c (df.getD i ("", [])).2 ≠ []) :
    cellAt (perform_knn_imputation df k) i c
      = some (qmean ((distDonors df (width df) c
          (df.getD i ("", [])).2).map Prod.snd)) := by
  have hfil : df.filter (fun r => 5 ≤ countPresent r.2) = df :=
    List.filter_eq_self.mpr fun r hr => decide_eq_true (hrows r hr)
  have hne : df ≠ [] :=
    List.length_pos.mp (Nat.lt_of_le_of_lt (Nat.zero_le i) hi)
  have hdne : df.filter (fun r => (r.2.getD c none).isSome) ≠ [] := by
    intro h0
    apply hw
    unfold distDonors
    rw [h0]
    rfl
  have hk0 : k ≠ 0 := by
    intro h0
    subst h0
    exact hdne (List.length_eq_zero.mp (Nat.le_zero.mp hk))
  have hany : ((List.range (width df)).any (fun cc => colVals df cc = []))
      = false := by
    rw [List.any_eq_false]
    intro cc hcc
    simpa using hcols cc hcc
  unfold perform_knn_imputation
  rw [hfil]
  unfold knnFitTransform
  rw [if_neg hne, if_neg hk0, if_neg (by simp [hany])]
  show ((df.map (fun r => (r.1, imputeCells df (width df) k r.2 0 r.2))).getD i
    ("", [])).2[c]? = _
  rw [getD_map_row df _ i rfl]
  show (imputeCells df (width df) k ((df.getD i ("", [])).2) 0
    ((df.getD i ("", [])).2))[c]? = _
  rw [imputeCells_getElem df (width df) k _ _ 0 c, hc]
  simp only [Option.map_some', Nat.zero_add]
  congr 1
  simp only [imputeCell]
  rw [if_neg hw]
  have hlen1 : (distDonors df (width df) c (df.getD i ("", [])).2).length
      ≤ (df.filter (fun r => (r.2.getD c none).isSome)).length :=
    List.length_filterMap_le _ _
  have htake : (sortByDist (distDonors df (width df) c
      (df.getD i ("", [])).2)).take
      (min k (df.filter (fun r => (r.2.getD c none).isSome)).length)
      = sortByDist (distDonors df (width df) c (df.getD i ("", [])).2) := by
    apply List.take_of_length_le
    rw [(sortByDist_perm _).length_eq]
    exact Nat.le_min.mpr ⟨Nat.le_trans hlen1 hk, hlen1⟩
  rw [htake]
  have hperm := (sortByDist_perm (distDonors df (width df) c
    (df.getD i ("", [])).2)).map Prod.snd
  unfold qmean
  rw [hperm.sum_eq, hperm.length_eq]

/-- C3 witness: a 2×6 matrix, one donor for the missing cell, k = 5. -/
theorem imputation_few_neighbors_witness :
    cellAt (perform_knn_imputation
      [("A", [some (1 : ℚ), some 1, some 1, some 1, some 1, none]),
       ("B", [some (1 : ℚ), some 1, some 1, some 1, some 1, some 2])] 5) 0 5
      = some 2 := by
  have h := imputation_few_neighbors
    [("A", [some (1 : ℚ), some 1, some 1, some 1, some 1, none]),
     ("B", [some (1 : ℚ), some 1, some 1, some 1, some 1, some 2])]
    5 0 5 (by decide) (by decide) (by decide) (by decide) (by decide)
    (by decide)
  rw [h]
  decide

/-! ### Imputation validator (02_data_validation.py, `validate_knn_imputation`)

Per candidate neighbour count and per fold the source seeds the numpy
global generator with the fold index (`np.random.seed(split)`), draws a
hide mask (`np.random.random(df.shape) < 0.2`, intersected with the
known mask), hides the masked cells, imputes with `KNNImputer`, and
collects the MSE over the hidden cells; a fold with zero comparison
pairs contributes nothing; a candidate with no valid fold gets no entry
in `validation_results`; finally `min(validation_results, key=mse)`
returns the first minimal entry and raises `ValueError` on an empty
list.  The generator draw is modelled abstractly: the pure embedding
takes the fold mask as a function `hm : fold → row → column → Bool`,
and a second embedding threads the generator state explicitly for the
determinism claim.  The per-candidate R² is recorded by the source for
reporting only — it cannot raise (`r2_score` yields NaN on degenerate
input) and does not influence the selection — and is not modelled. -/

/-- Hide the cells of one row selected by the fold mask, starting at
column index `j` (`test_data[hide_mask] = np.nan`; hiding is a no-op on
already-missing cells, mirroring `hide_mask & known_mask`). -/
def hideCellsGo (mrow : Nat → Bool) : Nat → List (Option ℚ) → List (Option ℚ)
  | _, [] => []
  | j, o :: rest => (if mrow j then none else o) :: hideCellsGo mrow (j + 1) rest

/-- Hide the masked cells of the rows, starting at row index `i`. -/
def hideDataGo (m : Nat → Nat → Bool) :
    Nat → List (String × List (Option ℚ)) → List (String × List (Option ℚ))
  | _, [] => []
  | i, r :: rest => (r.1, hideCellsGo (m i) 0 r.2) :: hideDataGo m (i + 1) rest

/-- Model of `test_data = df.copy(); test_data[hide_mask] = np.nan`. -/
def hideData (m : Nat → Nat → Bool) (df : List (String × List (Option ℚ))) :
    List (String × List (Option ℚ)) :=
  hideDataGo m 0 df

/-- The (true value, imputed value) pairs of one row at the positions
that are both masked and known, `j` the column index of the heads. -/
def rowPairsGo (mrow : Nat → Bool) :
    Nat → List (Option ℚ) → List ℚ → List (ℚ × ℚ)
  | _, [], _ => []
  | _, _ :: _, [] => []
  | j, o :: orest, p :: prest =>
    (match o with
     | some v => if mrow j then [(v, p)] else []
     | none => []) ++ rowPairsGo mrow (j + 1) orest prest

/-- All (true, imputed) pairs of the fold, `i` the row index of the
heads (`true_values = df[hide_mask]`, `predicted_values =
imputed_df[hide_mask]`, NaN positions discarded). -/
def foldPairsGo (m : Nat → Nat → Bool) :
    Nat → List (String × List (Option ℚ)) → List (String × List ℚ) →
      List (ℚ × ℚ)
  | _, [], _ => []
  | _, _ :: _, [] => []
  | i, r :: rrest, s :: srest =>
    rowPairsGo (m i) 0 r.2 s.2 ++ foldPairsGo m (i + 1) rrest srest

/-- The comparison pairs of one fold. -/
def foldPairs (m : Nat → Nat → Bool) (df : List (String × List (Option ℚ)))
    (imp : List (String × List ℚ)) : List (ℚ × ℚ) :=
  foldPairsGo m 0 df imp

/-- Model of `mean_squared_error(true_values, predicted_values)`. -/
def mseOf (l : List (ℚ × ℚ)) : ℚ :=
  qmean (l.map (fun p => (p.1 - p.2) ^ 2))

/-- One cross-validation fold under an explicit hide mask: `none` when
the imputation raised (the exception escapes the whole validator),
`some none` when the fold produced zero comparison pairs, and
`some (some m)` for a fold with MSE `m`. -/
def foldMseMask (m : Nat → Nat → Bool) (df : List (String × List (Option ℚ)))
    (k : Nat) : Option (Option ℚ) :=
  match knnFitTransform (hideData m df) k with
  | none => none
  | some imp =>
    let prs := foldPairs m df imp
    if prs = [] then some none else some (some (mseOf prs))

/-- The `mse_scores` list of one candidate over the folds `0..ns-1`
(crash-propagating). -/
def candScores (hm : Nat → Nat → Nat → Bool)
    (df : List (String × List (Option ℚ))) (k ns : Nat) :
    Option (List ℚ) :=
  (List.range ns).foldl (fun acc split =>
    match acc with
    | none => none
    | some scores =>
      match foldMseMask (hm split) df k with
      | none => none
      | some none => some scores
      | some (some v) => some (scores ++ [v])) (some [])

/-- Python `min(results, key=lambda x: x['mse'])`: the first element
attaining the minimal key (Python replaces the running minimum only on
a strictly smaller key); `none` models the `ValueError` raised on an
empty sequence. -/
def firstMinBy : List (Nat × ℚ) → Option (Nat × ℚ)
  | [] => none
  | x :: xs => some (xs.foldl (fun b y => if y.2 < b.2 then y else b) x)

/-- The `validation_results` accumulation over the candidate list
(crash-propagating). -/
def validateResults (hm : Nat → Nat → Nat → Bool)
    (df : List (String × List (Option ℚ))) (cands : List Nat) (ns : Nat) :
    Option (List (Nat × ℚ)) :=
  cands.foldl (fun acc k =>
    match acc with
    | none => none
    | some rs =>
      match candScores hm df k ns with
      | none => none
      | some scores =>
        some (if scores = [] then rs else rs ++ [(k, qmean scores)]))
    (some [])

/-- Model of `validate_knn_imputation` from 02_data_validation.py under an
abstract fold-mask family: accumulate the per-candidate results, then
`min(..., key=mse)`. -/
def validate_knn_imputation (hm : Nat → Nat → Nat → Bool)
    (df : List (String × List (Option ℚ))) (cands : List Nat) (ns : Nat) :
    Option (Nat × ℚ) :=
  match validateResults hm df cands ns with
  | none => none
  | some results => firstMinBy results

/-- The `validation_results` table written out directly: one entry per
candidate with at least one valid fold, in candidate order, carrying
the average MSE over its valid folds. -/
def resultsOf (hm : Nat → Nat → Nat → Bool)
    (df : List (String × List (Option ℚ))) (cands : List Nat) (ns : Nat) :
    List (Nat × ℚ) :=
  cands.filterMap (fun k =>
    match candScores hm df k ns with
    | none => none
    | some scores =>
      if scores = [] then none else some (k, qmean scores))

/-- Variant of `candScores` with the numpy global generator threaded explicitly:
`σ` is the generator-state type, `seedFn s` the state set by
`np.random.seed(s)`, and `draw st` the mask drawn by
`np.random.random(df.shape) < 0.2` together with the advanced state.
Each fold seeds before drawing, exactly as the source does. -/
def candScoresRng (σ : Type) (seedFn : Nat → σ)
    (draw : σ → (Nat → Nat → Bool) × σ)
    (df : List (String × List (Option ℚ))) (k ns : Nat) (st : σ) :
    Option (List ℚ) × σ :=
  (List.range ns).foldl (fun acc split =>
    match acc.1 with
    | none => acc
    | some scores =>
      let p := draw (seedFn split)
      match foldMseMask p.1 df k with
      | none => (none, p.2)
      | some none => (some scores, p.2)
      | some (some v) => (some (scores ++ [v]), p.2)) (some [], st)

/-- Variant of `validate_knn_imputation` with the generator state threaded
explicitly through candidates and folds. -/
def validateRng (σ : Type) (seedFn : Nat → σ)
    (draw : σ → (Nat → Nat → Bool) × σ)
    (df : List (String × List (Option ℚ))) (cands : List Nat) (ns : Nat)
    (st : σ) : Option (Nat × ℚ) × σ :=
  let r := cands.foldl (fun acc k =>
    match acc.1 with
    | none => acc
    | some rs =>
      let q := candScoresRng σ seedFn draw df k ns acc.2
      match q.1 with
      | none => (none, q.2)
      | some scores =>
        (some (if scores = [] then rs else rs ++ [(k, qmean scores)]), q.2))
    (some [], st)
  (match r.1 with
   | none => none
   | some results => firstMinBy results, r.2)

/-! ### C7: determinism of the validator -/

theorem candScoresRng_fst (σ : Type) (seedFn : Nat → σ)
    (draw : σ → (Nat → Nat → Bool) × σ)
    (df : List (String × List (Option ℚ))) (k ns : Nat) (st : σ) :
    (candScoresRng σ seedFn draw df k ns st).1
      = candScores (fun s => (draw (seedFn s)).1) df k ns := by
  unfold candScoresRng candScores
  suffices h : ∀ (L : List Nat) (acc : Option (List ℚ)) (st : σ),
      (L.foldl (fun acc split =>
        match acc.1 with
        | none => acc
        | some scores =>
          let p := draw (seedFn split)
          match foldMseMask p.1 df k with
          | none => (none, p.2)
          | some none => (some scores, p.2)
          | some (some v) => (some (scores ++ [v]), p.2)) (acc, st)).1
        = L.foldl (fun acc split =>
            match acc with
            | none => none
            | some scores =>
              match foldMseMask ((fun s => (draw (seedFn s)).1) split) df k with
              | none => none
              | some none => some scores
              | some (some v) => some (scores ++ [v])) acc by
    exact h (List.range ns) (some []) st
  intro L
  induction L with
  | nil => intro acc st; rfl
  | cons a L ih =>
    intro acc st
    simp only [List.foldl_cons]
    cases acc with
    | none => exact ih none st
    | some scores =>
      cases hfm : foldMseMask (draw (seedFn a)).1 df k with
      | none =>
        simp only [hfm]
        exact ih none (draw (seedFn a)).2
      | some o =>
        cases o with
        | none =>
          simp only [hfm]
          exact ih (some scores) (draw (seedFn a)).2
        | some v =>
          simp only [hfm]
          exact ih (some (scores ++ [v])) (draw (seedFn a)).2

theorem validateRng_fst (σ : Type) (seedFn : Nat → σ)
    (draw : σ → (Nat → Nat → Bool) × σ)
    (df : List (String × List (Option ℚ))) (cands : List Nat) (ns : Nat)
    (st : σ) :
    (validateRng σ seedFn draw df cands ns st).1
      = validate_knn_imputation (fun s => (draw (seedFn s)).1) df cands ns := by
  unfold validateRng validate_knn_imputation validateResults
  suffices h : ∀ (L : List Nat) (acc : Option (List (Nat × ℚ))) (st : σ),
      (L.foldl (fun acc k =>
        match acc.1 with
        | none => acc
        | some rs =>
          let q := candScoresRng σ seedFn draw df k ns acc.2
          match q.1 with
          | none => (none, q.2)
          | some scores =>
            (some (if scores = [] then rs else rs ++ [(k, qmean scores)]),
              q.2)) (acc, st)).1
        = L.foldl (fun acc k =>
            match acc with
            | none => none
            | some rs =>
              match candScores (fun s => (draw (seedFn s)).1) df k ns with
              | none => none
              | some scores =>
                some (if scores = [] then rs else rs ++ [(k, qmean scores)]))
            acc by
    rw [← h cands (some []) st]
  intro L
  induction L with
  | nil => intro acc st; rfl
  | cons a L ih =>
    intro acc st
    simp only [List.foldl_cons]
    cases acc with
    | none => exact ih none st
    | some rs =>
      cases hq : candScores (fun s => (draw (seedFn s)).1) df a ns with
      | none =>
        have h1 : (candScoresRng σ seedFn draw df a ns st).1 = none := by
          rw [candScoresRng_fst, hq]
        simp only [h1, hq]
        exact ih none (candScoresRng σ seedFn draw df a ns st).2
      | some scores =>
        have h1 : (candScoresRng σ seedFn draw df a ns st).1 = some scores := by
          rw [candScoresRng_fst, hq]
        simp only [h1, hq]
        exact ih (some (if scores = [] then rs else rs ++ [(a, qmean scores)]))
          (candScoresRng σ seedFn draw df a ns st).2

/-- C7: the validator's output does not depend on the incoming state of
the random generator, because each fold re-seeds the generator with the
fold index alone before drawing its hide mask: the state-threaded run
equals the pure embedding whose fold-s mask is the draw from the seeded
state, for every initial state; in particular two runs on the same
matrix and configuration return the identical winner and metrics. -/
theorem validateRng_deterministic (σ : Type) (seedFn : Nat → σ)
    (draw : σ → (Nat → Nat → Bool) × σ)
    (df : List (String × List (Option ℚ))) (cands : List Nat) (ns : Nat)
    (st st' : σ) :
    (validateRng σ seedFn draw df cands ns st).1
      = validate_knn_imputation (fun s => (draw (seedFn s)).1) df cands ns ∧
    (validateRng σ seedFn draw df cands ns st).1
      = (validateRng σ seedFn draw df cands ns st').1 := by
  refine ⟨validateRng_fst σ seedFn draw df cands ns st, ?_⟩
  rw [validateRng_fst σ seedFn draw df cands ns st,
    validateRng_fst σ seedFn draw df cands ns st']

/-! ### C4: selection by minimal MSE, ValueError on empty results -/

theorem validateResults_eq (hm : Nat → Nat → Nat → Bool)
    (df : List (String × List (Option ℚ))) (ns : Nat) :
    ∀ (L : List Nat) (rs : List (Nat × ℚ)),
      (∀ k ∈ L, candScores hm df k ns ≠ none) →
      L.foldl (fun acc k =>
        match acc with
        | none => none
        | some rs =>
          match candScores hm df k ns with
          | none => none
          | some scores =>
            some (if scores = [] then rs else rs ++ [(k, qmean scores)]))
        (some rs)
        = some (rs ++ resultsOf hm df L ns) := by
  intro L
  induction L with
  | nil =>
    intro rs _
    simp [resultsOf]
  | cons a L ih =>
    intro rs h
    have ha := h a (by simp)
    simp only [List.foldl_cons]
    cases hs : candScores hm df a ns with
    | none => exact absurd hs ha
    | some scores =>
      simp only [hs]
      by_cases hemp : scores = []
      · rw [if_pos hemp, ih rs (fun k hk => h k (by simp [hk]))]
        simp [resultsOf, List.filterMap_cons, hs, hemp]
      · rw [if_neg hemp, ih (rs ++ [(a, qmean scores)])
          (fun k hk => h k (by simp [hk]))]
        simp [resultsOf, List.filterMap_cons, hs, hemp]

theorem foldlMin_spec (xs : List (Nat × ℚ)) :
    ∀ b : Nat × ℚ,
      ∃ pre post,
        b :: xs
          = pre ++ (xs.foldl (fun b y => if y.2 < b.2 then y else b) b) :: post ∧
        (∀ y ∈ pre,
          (xs.foldl (fun b y => if y.2 < b.2 then y else b) b).2 < y.2) ∧
        (∀ y ∈ b :: xs,
          (xs.foldl (fun b y => if y.2 < b.2 then y else b) b).2 ≤ y.2) := by
  induction xs with
  | nil =>
    intro b
    exact ⟨[], [], rfl, by simp, by simp⟩
  | cons y ys ih =>
    intro b
    simp only [List.foldl_cons]
    by_cases hlt : y.2 < b.2
    · simp only [if_pos hlt]
      obtain ⟨pre, post, heq, hpre, hmin⟩ := ih y
      refine ⟨b :: pre, post, ?_, ?_, ?_⟩
      · rw [List.cons_append, ← heq]
      · intro z hz
        rcases List.mem_cons.mp hz with rfl | hz'
        · exact lt_of_le_of_lt (hmin y (List.mem_cons_self y ys)) hlt
        · exact hpre z hz'
      · intro z hz
        rcases List.mem_cons.mp hz with rfl | hz'
        · exact le_of_lt (lt_of_le_of_lt (hmin y (List.mem_cons_self y ys)) hlt)
        · exact hmin z hz'
    · simp only [if_neg hlt]
      have hge : b.2 ≤ y.2 := not_lt.mp hlt
      obtain ⟨pre, post, heq, hpre, hmin⟩ := ih b
      cases pre with
      | nil =>
        simp only [List.nil_append] at heq
        obtain ⟨hb, hpost⟩ := List.cons.inj heq
        refine ⟨[], y :: post, ?_, by simp, ?_⟩
        · rw [List.nil_append, ← hb, hpost]
        · intro z hz
          rcases List.mem_cons.mp hz with rfl | hz'
          · exact hmin z (List.mem_cons_self z ys)
          · rcases List.mem_cons.mp hz' with rfl | hz''
            · rw [← hb]
              exact hge
            · exact hmin z (List.mem_cons_of_mem b hz'')
      | cons p0 pre' =>
        rw [List.cons_append] at heq
        obtain ⟨hb, hys⟩ := List.cons.inj heq
        have hrb : (ys.foldl (fun b y => if y.2 < b.2 then y else b) b).2
            < b.2 := by
          have h0 := hpre p0 (List.mem_cons_self p0 pre')
          rwa [← hb] at h0
        refine ⟨b :: y :: pre', post, ?_, ?_, ?_⟩
        · rw [List.cons_append, List.cons_append, ← hys]
        · intro z hz
          rcases List.mem_cons.mp hz with rfl | hz'
          · exact hrb
          · rcases List.mem_cons.mp hz' with rfl | hz''
            · exact lt_of_lt_of_le hrb hge
            · exact hpre z (List.mem_cons_of_mem p0 hz'')
        · intro z hz
          rcases List.mem_cons.mp hz with rfl | hz'
          · exact le_of_lt hrb
          · rcases List.mem_cons.mp hz' with rfl | hz''
            · exact le_of_lt (lt_of_lt_of_le hrb hge)
            · exact hmin z (List.mem_cons_of_mem b hz'')

theorem firstMinBy_spec (l : List (Nat × ℚ)) :
    (firstMinBy l = none ↔ l = []) ∧
    ∀ r, firstMinBy l = some r →
      ∃ pre post, l = pre ++ r :: post ∧ (∀ x ∈ pre, r.2 < x.2) ∧
        ∀ x ∈ l, r.2 ≤ x.2 := by
  cases l with
  | nil =>
    refine ⟨by simp [firstMinBy], ?_⟩
    intro r hr
    simp [firstMinBy] at hr
  | cons x xs =>
    refine ⟨by simp [firstMinBy], ?_⟩
    intro r hr
    have hr' : xs.foldl (fun b y => if y.2 < b.2 then y else b) x = r :=
      Option.some.inj hr
    obtain ⟨pre, post, heq, hpre, hmin⟩ := foldlMin_spec xs x
    rw [hr'] at heq hpre hmin
    exact ⟨pre, post, heq, hpre, hmin⟩

/-- C4: assuming no fold raised (the imputation inside every fold of
every candidate succeeded), the validator returns exactly the first
entry of the per-candidate results table attaining the minimal average
MSE — ties break to the candidate occurring first — and it fails
(Python `ValueError` from `min([])`, modelled `none`) exactly when no
candidate produced any valid fold, never defaulting silently. -/
theorem validate_knn_selects_min (hm : Nat → Nat → Nat → Bool)
    (df : List (String × List (Option ℚ))) (cands : List Nat) (ns : Nat)
    (hok : ∀ k ∈ cands, candScores hm df k ns ≠ none) :
    (validate_knn_imputation hm df cands ns = none
      ↔ resultsOf hm df cands ns = []) ∧
    ∀ r, validate_knn_imputation hm df cands ns = some r →
      r ∈ resultsOf hm df cands ns ∧
      (∀ x ∈ resultsOf hm df cands ns, r.2 ≤ x.2) ∧
      ∃ pre post, resultsOf hm df cands ns = pre ++ r :: post ∧
        ∀ x ∈ pre, r.2 < x.2 := by
  have hres : validateResults hm df cands ns
      = some (resultsOf hm df cands ns) := by
    unfold validateResults
    simpa using validateResults_eq hm df ns cands [] hok
  have hval : validate_knn_imputation hm df cands ns
      = firstMinBy (resultsOf hm df cands ns) := by
    unfold validate_knn_imputation
    rw [hres]
  obtain ⟨h1, h2⟩ := firstMinBy_spec (resultsOf hm df cands ns)
  rw [hval]
  refine ⟨h1, ?_⟩
  intro r hr
  obtain ⟨pre, post, heq, hpre, hmin⟩ := h2 r hr
  refine ⟨?_, hmin, pre, post, heq, hpre⟩
  rw [heq]
  simp

/-- C4 witness: one candidate, one fold, one hidden cell; the winner is
the sole results entry (1, 0) and it is minimal. -/
theorem validate_knn_selects_min_witness :
    validate_knn_imputation (fun s i j => s == 0 && i == 0 && j == 0)
      [("A", [some (1 : ℚ), some 2]), ("B", [some 1, some 2])] [1] 1
      = some (1, 0) ∧
    (1, (0 : ℚ)) ∈ resultsOf (fun s i j => s == 0 && i == 0 && j == 0)
      [("A", [some (1 : ℚ), some 2]), ("B", [some 1, some 2])] [1] 1 ∧
    ∀ x ∈ resultsOf (fun s i j => s == 0 && i == 0 && j == 0)
      [("A", [some (1 : ℚ), some 2]), ("B", [some 1, some 2])] [1] 1,
      ((1, (0 : ℚ)) : Nat × ℚ).2 ≤ x.2 := by
  have h := (validate_knn_selects_min (fun s i j => s == 0 && i == 0 && j == 0)
    [("A", [some (1 : ℚ), some 2]), ("B", [some 1, some 2])] [1] 1
    (by decide)).2 (1, 0) (by decide)
  exact ⟨by decide, h.1, h.2.1⟩

end PipelineVerification
